import Mathlib

/-
  Verification of the NiFi flow ingestion/analysis pipeline
  (Parse_Agent/ingestion_agent2.py) against its specification.

  The Python source is shallowly embedded below: dictionaries become
  structures or association lists, sets become lists queried only through
  membership, exceptions become `Except`, and Python truthiness of
  optional strings is made explicit.  Literal braces and apostrophes in
  embedded strings are written with \x7b, \x7d and \x27 escapes.
-/

set_option maxRecDepth 4000

namespace NifiIngest

/-! ## Basic character/string utilities (Python `in`, `startswith`,
    `lower`, `strip`, `rstrip`) -/

def dollar : Char := Char.ofNat 36

def lbrace : Char := Char.ofNat 123

def rbrace : Char := Char.ofNat 125

/-- `startsL n h` : the char list `n` is a leading segment of `h`
    (Python `str.startswith` on the underlying characters). -/
def startsL : List Char → List Char → Bool
  | [], _ => true
  | _ :: _, [] => false
  | a :: ns, b :: hs => a = b && startsL ns hs

/-- Python `needle in hay` for strings, on char lists. -/
def containsL (needle : List Char) : List Char → Bool
  | [] => needle.isEmpty
  | c :: t => startsL needle (c :: t) || containsL needle t

/-- Python `sub in s`. -/
def containsSub (hay sub : String) : Bool := containsL sub.toList hay.toList

/-- Python `s.startswith(pre)`. -/
def startsWithB (s pre : String) : Bool := startsL pre.toList s.toList

/-- Python `s.lower()` (ASCII, sufficient for the scanned inputs). -/
def lowerStr (s : String) : String := String.mk (s.toList.map Char.toLower)

/-- Python `s.strip()`: remove leading and trailing whitespace. -/
def stripWs (s : String) : String :=
  String.mk (((s.toList.dropWhile Char.isWhitespace).reverse.dropWhile
    Char.isWhitespace).reverse)

/-- Python `s.rstrip("://")`: strip any trailing ':' or '/' characters. -/
def rstripCS (s : String) : String :=
  String.mk ((s.toList.reverse.dropWhile (fun c => c = ':' || c = '/')).reverse)

/-- `s.split(c)[0]`: everything before the first occurrence of `c`. -/
def takeBeforeChar (s : String) (c : Char) : String :=
  String.mk (s.toList.takeWhile (fun x => x ≠ c))

/-- Truthiness of an optional string (Python: missing key or `""` are falsy). -/
def truthyOpt : Option String → Bool
  | some s => !s.isEmpty
  | none => false

/-- `truthyId o` is `some s` exactly when `o` holds a non-empty id. -/
def truthyId : Option String → Option String
  | some s => if s.isEmpty then none else some s
  | none => none

/-! ## JSON-like values and Python equality

Property values and the back-pressure thresholds in the parsed model are
Python objects: strings, integers or `None`.  `pyEq` is Python `==` on
these (cross-type comparison is `False`). -/

inductive JVal : Type where
  | jstr : String → JVal
  | jint : Int → JVal
  | jnull : JVal
deriving DecidableEq

def pyEq : JVal → JVal → Bool
  | JVal.jstr a, JVal.jstr b => a = b
  | JVal.jint a, JVal.jint b => a = b
  | JVal.jnull, JVal.jnull => true
  | _, _ => false

/-- First-match lookup in an association list (a Python dict access). -/
def lookupJ (l : List (String × JVal)) (k : String) : Option JVal :=
  (l.find? (fun p => p.1 == k)).map (fun p => p.2)

def lookupS (l : List (String × String)) (k : String) : Option String :=
  (l.find? (fun p => p.1 == k)).map (fun p => p.2)

/-- Python `{**a, **b}`: keys of `a` in order (values overridden by `b`
    where present), then the keys of `b` not in `a`, in `b`'s order. -/
def dictMerge (a b : List (String × JVal)) : List (String × JVal) :=
  a.map (fun p => (p.1, (lookupJ b p.1).getD p.2))
    ++ b.filter (fun p => (lookupJ a p.1).isNone)

/-! ## The flow data model

Mirrors the dictionaries produced by the loader and consumed by the
validators (`data["processors"]` etc.).  `Option` marks a key that can be
absent (`dict.get`).  Keys of the source records that no analyzed
function reads (`sourceType`, `selectedRelationships`,
`flowFileExpiration`, `_parent_group_id`, ...) are omitted. -/

structure PComponent where
  name : Option String
  ptype : Option String
  state : Option String
  properties : List (String × JVal)
  config_properties : List (String × JVal)
  relationships : List String
deriving DecidableEq

structure Processor where
  id : Option String
  component : PComponent
  hier_depth : Option Nat
deriving DecidableEq

structure Conn where
  id : Option String
  name : Option String
  sourceId : Option String
  destinationId : Option String
  bpObj : Option JVal
  bpSize : Option JVal
deriving DecidableEq

structure CtrlService where
  id : Option String
  component : PComponent
deriving DecidableEq

structure SimpleComp where
  id : Option String
deriving DecidableEq

structure PCParam where
  name : Option String
  parameter_name : Option String
deriving DecidableEq

structure ParamCtx where
  parameters : List PCParam
deriving DecidableEq

structure FlowData where
  processors : List Processor
  connections : List Conn
  controller_services : List CtrlService
  process_groups : List SimpleComp
  input_ports : List SimpleComp
  output_ports : List SimpleComp
  funnels : List SimpleComp
  remote_process_groups : List SimpleComp
  parameter_contexts : List ParamCtx
deriving DecidableEq

def emptyData : FlowData := ⟨[], [], [], [], [], [], [], [], []⟩

/-- The validator's custom exception `FlowValidationError(message,
    component_id, component_name, line_number)`. -/
structure FVErr where
  message : String
  component_id : Option String
  component_name : Option String
  line_number : Option Nat
deriving DecidableEq

instance {ε α : Type} [DecidableEq ε] [DecidableEq α] : DecidableEq (Except ε α) :=
  fun a b =>
    match a, b with
    | .ok x, .ok y => if h : x = y then isTrue (by rw [h]) else isFalse (by simp [h])
    | .error x, .error y => if h : x = y then isTrue (by rw [h]) else isFalse (by simp [h])
    | .ok _, .error _ => isFalse (by simp)
    | .error _, .ok _ => isFalse (by simp)

/-- A validation warning record; unused dict keys of a given warning
    shape are `none` / `[]`. -/
structure Warning where
  wtype : String
  severity : String
  message : String
  cycle : List String
  processor : Option String
  processor_id : Option String
  parameter : Option String
  property : Option String
deriving DecidableEq

/-- A security finding record. -/
structure Finding where
  ftype : String
  severity : String
  processor : Option String
  processor_id : Option String
  controller_service : Option String
  controller_service_id : Option String
  property : Option String
  protocol : Option String
  message : String
  recommendation : Option String
deriving DecidableEq

/-! ## Security configuration

`SENSITIVE_PATTERNS` is a list of case-insensitive regexes of the shape
`\bword\b` (some with an optional `[_-]` between two literal pieces).
Each is translated to its exact set of literal alternatives, matched
with word boundaries: a match at a position requires the preceding and
following characters (when present) to be non-word characters
(`\w` = letters, digits, `_`). -/

def isWordChar (c : Char) : Bool := c.isAlphanum || c = '_'

/-- `\bkw\b` matches at the head of `hay` (boundary before the head is
    checked by the caller). -/
def wbAt (kw hay : List Char) : Bool :=
  startsL kw hay &&
    (match hay.drop kw.length with
     | [] => true
     | c :: _ => !isWordChar c)

/-- Scan `hay` for a word-boundary occurrence of `kw`; `prevOk` records
    whether the character before the current position is a boundary. -/
def wbSearch (kw : List Char) : Bool → List Char → Bool
  | prevOk, [] => prevOk && wbAt kw []
  | prevOk, c :: t => (prevOk && wbAt kw (c :: t)) || wbSearch kw (!isWordChar c) t

/-- The literal alternatives of each entry of `SENSITIVE_PATTERNS`
    (`api[_-]?key` expands to `api_key`, `api-key`, `apikey`, etc.). -/
def SENSITIVE_ALTERNATIVES : List (List String) :=
  [["password"], ["passwd"], ["pwd"], ["secret"],
   ["api_key", "api-key", "apikey"], ["apikey"],
   ["access_key", "access-key", "accesskey"],
   ["private_key", "private-key", "privatekey"],
   ["auth_token", "auth-token", "authtoken"], ["credential"],
   ["certificate"], ["cert"], ["ssl"], ["tls"],
   ["truststore"], ["keystore"],
   ["encryption_key", "encryption-key", "encryptionkey"],
   ["bearer"], ["oauth"]]

/-- `any(regex.search(prop_name) for regex in sensitive_regexes)`:
    the patterns are compiled with `re.IGNORECASE`, so the haystack is
    lowered (the alternatives are already lowercase). -/
def isSensitiveName (nm : String) : Bool :=
  let h := (lowerStr nm).toList
  SENSITIVE_ALTERNATIVES.any (fun alts => alts.any (fun kw => wbSearch kw.toList true h))

def INSECURE_PROTOCOLS : List String := ["http://", "ftp://", "telnet://", "ldap://"]

def NIFI_SYSTEM_FUNCTIONS : List String :=
  ["allAttributes", "anyAttribute", "allMatchingAttributes", "anyMatchingAttribute",
   "allDelineatedValues", "anyDelineatedValue", "append", "prepend", "substring",
   "substringBefore", "substringAfter", "substringBeforeLast", "substringAfterLast",
   "replace", "replaceFirst", "replaceAll", "replaceNull", "replaceEmpty", "trim",
   "toLower", "toUpper", "padLeft", "padRight", "repeat", "startsWith", "endsWith",
   "contains", "in", "find", "matches", "indexOf", "lastIndexOf", "escapeJson",
   "unescapeJson", "escapeXml", "unescapeXml", "escapeHtml3", "escapeHtml4",
   "escapeCsv", "unescapeCsv", "urlEncode", "urlDecode", "base64Encode", "base64Decode",
   "plus", "minus", "multiply", "divide", "mod", "toRadix", "fromRadix", "random",
   "math", "now", "format", "toDate", "toNumber", "isNull", "notNull", "isEmpty",
   "equals", "equalsIgnoreCase", "gt", "ge", "lt", "le", "and", "or", "not", "ifElse",
   "hostname", "ip", "uuid", "UUID", "nextInt", "literal", "getStateValue", "thread",
   "getDelimitedField", "jsonPath", "jsonPathDelete", "jsonPathPut", "jsonPathSet",
   "evaluateELString", "count", "length", "toString", "toDecimal", "getUri", "url", "hash"]

def NIFI_SYSTEM_PROPERTIES : List String :=
  ["nifi.", "java.", "env.", "hostname.", "Environment.", "System."]

/-! ## Security audit (`_security_audit`) -/

def mkCredFinding (pname : String) (pid : Option String) (propName : String) : Finding :=
  { ftype := "hardcoded_credential", severity := "HIGH",
    processor := some pname, processor_id := pid,
    controller_service := none, controller_service_id := none,
    property := some propName, protocol := none,
    message := "Potential hardcoded credential in \x27" ++ propName ++ "\x27",
    recommendation := some "Use Parameter Context or secrets manager" }

def mkProtoFinding (pname : String) (pid : Option String) (propName : String)
    (protocol : String) : Finding :=
  { ftype := "insecure_protocol", severity := "MEDIUM",
    processor := some pname, processor_id := pid,
    controller_service := none, controller_service_id := none,
    property := some propName, protocol := some (rstripCS protocol),
    message := "Insecure protocol \x27" ++ protocol ++ "\x27 detected",
    recommendation := some "Use encrypted alternative (HTTPS, SFTP, etc.)" }

def mkCredServiceFinding (csname : String) (csid : Option String)
    (propName : String) : Finding :=
  { ftype := "hardcoded_credential_service", severity := "HIGH",
    processor := none, processor_id := none,
    controller_service := some csname, controller_service_id := csid,
    property := some propName, protocol := none,
    message := "Potential hardcoded credential in service \x27" ++ csname ++ "\x27",
    recommendation := some "Use Parameter Context" }

/-- `is_sensitive and prop_value and "${" not in prop_value`. -/
def credCondition (propName s : String) : Bool :=
  isSensitiveName propName && !s.isEmpty && !containsSub s "$\x7b"

/-- Findings produced for one processor property (non-string values are
    skipped by the `isinstance` guard). -/
def procPropFindings (pname : String) (pid : Option String)
    (propName : String) (v : JVal) : List Finding :=
  match v with
  | JVal.jstr s =>
    (if credCondition propName s then [mkCredFinding pname pid propName] else [])
      ++ (INSECURE_PROTOCOLS.filter
            (fun pr => containsSub (lowerStr s) pr)).map
          (fun pr => mkProtoFinding pname pid propName pr)
  | _ => []

/-- Findings for one controller-service property (credential check only:
    the source's service loop has no insecure-protocol scan). -/
def csPropFindings (csname : String) (csid : Option String)
    (propName : String) (v : JVal) : List Finding :=
  match v with
  | JVal.jstr s =>
    if credCondition propName s then [mkCredServiceFinding csname csid propName] else []
  | _ => []

def security_audit (d : FlowData) : List Finding :=
  (d.processors.flatMap (fun p =>
    (dictMerge p.component.properties p.component.config_properties).flatMap
      (fun pr => procPropFindings (p.component.name.getD "Unnamed") p.id pr.1 pr.2)))
    ++ (d.controller_services.flatMap (fun cs =>
      cs.component.properties.flatMap
        (fun pr => csPropFindings (cs.component.name.getD "Unnamed") cs.id pr.1 pr.2)))

/-! ## Valid-ID collection (`_collect_all_valid_ids`) -/

def collect_all_valid_ids (d : FlowData) : List String :=
  (d.processors.filterMap (fun p => truthyId p.id))
    ++ (d.process_groups.flatMap (fun g =>
      match truthyId g.id with
      | some s => [s, s ++ "-input-port", s ++ "-output-port"]
      | none => []))
    ++ (d.controller_services.filterMap (fun c => truthyId c.id))
    ++ (d.input_ports.filterMap (fun c => truthyId c.id))
    ++ (d.output_ports.filterMap (fun c => truthyId c.id))
    ++ (d.funnels.filterMap (fun c => truthyId c.id))
    ++ (d.remote_process_groups.filterMap (fun c => truthyId c.id))

/-! ## Connection validation and graph construction -/

/-- The adjacency map `connection_graph` (a `defaultdict(list)`): keys in
    first-insertion order, each with its list of appended targets. -/
abbrev Graph : Type := List (String × List String)

def addEdge : Graph → String → String → Graph
  | [], s, d => [(s, [d])]
  | (k, vs) :: t, s, d =>
    if k = s then (k, vs ++ [d]) :: t else (k, vs) :: addEdge t s d

def graphGet (g : Graph) (n : String) : List String :=
  ((g.find? (fun p => p.1 == n)).map (fun p => p.2)).getD []

def keysOf (g : Graph) : List String := g.map (fun p => p.1)

def fmtOpt : Option String → String
  | none => "None"
  | some s => s

def connDisplayId (c : Conn) : String := c.id.getD "unknown"

def connDisplayName (c : Conn) : String :=
  c.name.getD ("Connection " ++ connDisplayId c)

def srcErr (c : Conn) : FVErr :=
  { message := "Connection \x27" ++ connDisplayName c ++ "\x27 has invalid source: "
      ++ fmtOpt c.sourceId,
    component_id := some (connDisplayId c),
    component_name := some (connDisplayName c), line_number := none }

def dstErr (c : Conn) : FVErr :=
  { message := "Connection \x27" ++ connDisplayName c ++ "\x27 has invalid destination: "
      ++ fmtOpt c.destinationId,
    component_id := some (connDisplayId c),
    component_name := some (connDisplayName c), line_number := none }

/-- `not (not source_id or source_id not in valid_ids)`. -/
def srcOkB (vids : List String) (c : Conn) : Bool :=
  truthyOpt c.sourceId && vids.contains (c.sourceId.getD "")

def dstOkB (vids : List String) (c : Conn) : Bool :=
  truthyOpt c.destinationId && vids.contains (c.destinationId.getD "")

def connCheck (vids : List String) (g : Graph) (c : Conn) : Except FVErr Graph :=
  if srcOkB vids c then
    if dstOkB vids c then
      .ok (addEdge g (c.sourceId.getD "") (c.destinationId.getD ""))
    else .error (dstErr c)
  else .error (srcErr c)

def buildGraphAux (vids : List String) : Graph → List Conn → Except FVErr Graph
  | g, [] => .ok g
  | g, c :: rest =>
    match connCheck vids g c with
    | .error e => .error e
    | .ok g2 => buildGraphAux vids g2 rest

def buildGraph (d : FlowData) : Except FVErr Graph :=
  buildGraphAux (collect_all_valid_ids d) [] d.connections

/-! ## Cycle detection (`_detect_cycles`)

The Python function is a recursive DFS mutating four shared variables
(`visited`, `rec_stack`, `path`, `cycles`); `dfs` returns `True` as soon
as a cycle is recorded, in which case the `path.pop()` /
`rec_stack.remove` cleanup of every frame on the call stack is skipped.
The embedding threads the four variables as a state record and uses a
fuel parameter that strictly exceeds the maximal call-chain depth
(each frame consumes one fuel unit; a chain visits each node at most
once and walks each adjacency list once, so `3 * size + 3` fuel can
never be exhausted), so the fuel-exhaustion branch is unreachable and
the embedding computes exactly the Python result. -/

structure DfsSt where
  visited : List String
  rec_stack : List String
  path : List String
  cycles : List (List String)
deriving DecidableEq

def initSt : DfsSt := ⟨[], [], [], []⟩

/-- `path.index(neighbor)` (the neighbor is always present when used). -/
def idxOf (a : String) : List String → Nat
  | [] => 0
  | b :: t => if b = a then 0 else idxOf a t + 1

/-- `cycles.append(path[cycle_start:] + [neighbor])`. -/
def recordCycle (st : DfsSt) (nb : String) : DfsSt :=
  { st with cycles := st.cycles ++ [st.path.drop (idxOf nb st.path) ++ [nb]] }

/-- Entry of `dfs(node)`: mark visited, push on stack and path. -/
def pushNode (st : DfsSt) (node : String) : DfsSt :=
  { st with visited := st.visited ++ [node],
            rec_stack := st.rec_stack ++ [node],
            path := st.path ++ [node] }

/-- Normal exit of `dfs(node)`: `path.pop(); rec_stack.remove(node)`. -/
def popNode (st : DfsSt) (node : String) : DfsSt :=
  { st with path := st.path.dropLast, rec_stack := st.rec_stack.erase node }

/-- One step of the DFS.  `Sum.inl node` is a call `dfs(node)`;
    `Sum.inr (node, rest)` is the neighbor loop of `dfs(node)` with the
    neighbors `rest` still to process.  The `Bool` is `dfs`'s return. -/
def dfsStep (g : Graph) : Nat → (String ⊕ (String × List String)) → DfsSt → DfsSt × Bool
  | 0, _, st => (st, false)
  | n + 1, Sum.inl node, st =>
    match dfsStep g n (Sum.inr (node, graphGet g node)) (pushNode st node) with
    | (st2, true) => (st2, true)
    | (st2, false) => (popNode st2 node, false)
  | _ + 1, Sum.inr (_, []), st => (st, false)
  | n + 1, Sum.inr (node, nb :: rest), st =>
    if nb ∈ st.visited then
      if nb ∈ st.rec_stack then (recordCycle st nb, true)
      else dfsStep g n (Sum.inr (node, rest)) st
    else
      match dfsStep g n (Sum.inl nb) st with
      | (st2, true) => (st2, true)
      | (st2, false) => dfsStep g n (Sum.inr (node, rest)) st2

def graphSizeN (g : Graph) : Nat :=
  g.length + (g.map (fun p => p.2.length)).sum

def totalFuel (g : Graph) : Nat := 3 * graphSizeN g + 3

/-- The outer `for node in graph: if node not in visited: dfs(node)`. -/
def detectCyclesSt (g : Graph) : DfsSt :=
  (keysOf g).foldl
    (fun st k => if k ∈ st.visited then st else (dfsStep g (totalFuel g) (Sum.inl k) st).1)
    initSt

def detect_cycles (g : Graph) : List (List String) := (detectCyclesSt g).cycles

/-! ## Tier 2: logical/semantic validation (`_validate_logical_semantics`) -/

def mkCycleWarning (c : List String) : Warning :=
  { wtype := "circular_dependency", severity := "HIGH",
    message := "Circular dependency detected: " ++ String.intercalate " -> " c,
    cycle := c, processor := none, processor_id := none,
    parameter := none, property := none }

def mkDisabledWarning (pname : String) (pid : Option String) : Warning :=
  { wtype := "disabled_processor", severity := "LOW",
    message := "Processor \x27" ++ pname ++ "\x27 is disabled",
    cycle := [], processor := some pname, processor_id := pid,
    parameter := none, property := none }

def mkDeadEndWarning (pname : String) (pid : Option String) : Warning :=
  { wtype := "dead_end_processor", severity := "MEDIUM",
    message := "Non-terminal processor \x27" ++ pname ++ "\x27 has no outbound connections",
    cycle := [], processor := some pname, processor_id := pid,
    parameter := none, property := none }

def scriptErr (pname : String) (pid : Option String) : FVErr :=
  { message := "Script processor \x27" ++ pname ++ "\x27 has no script",
    component_id := pid, component_name := some pname, line_number := none }

def SCRIPT_TYPE_MARKERS : List String := ["ExecuteScript", "ExecuteGroovy", "ExecutePython"]

def TERMINAL_MARKERS : List String := ["Put", "Publish", "Post", "Send"]

/-- `all_props.get(key, "")` followed by `.strip()` use; non-string
    values never occur at these keys in parsed inputs (Python would
    raise `AttributeError` on them). -/
def getPropStr (props : List (String × JVal)) (k : String) : String :=
  match lookupJ props k with
  | some (JVal.jstr s) => s
  | some _ => ""
  | none => ""

/-- `proc_id not in connection_graph` (a `None` id is in no key set). -/
def idInGraph (g : Graph) : Option String → Bool
  | some s => (keysOf g).contains s
  | none => false

/-- Per-processor segment of the tier-2 loop: disabled warning, fatal
    script check, dead-end warning. -/
def processorChecksAux (g : Graph) : List Processor → Except FVErr (List Warning)
  | [] => .ok []
  | p :: rest =>
    let comp := p.component
    let pname := comp.name.getD "Unnamed"
    let ptype := comp.ptype.getD "Unknown"
    let pstate := comp.state.getD "STOPPED"
    let disabledWs : List Warning :=
      if pstate = "DISABLED" then [mkDisabledWarning pname p.id] else []
    let isScript := SCRIPT_TYPE_MARKERS.any (fun t => containsSub ptype t)
    let allProps := dictMerge comp.properties comp.config_properties
    let scriptMissing :=
      (stripWs (getPropStr allProps "Script Body")).isEmpty
        && (stripWs (getPropStr allProps "Script File")).isEmpty
    if isScript && scriptMissing then .error (scriptErr pname p.id)
    else
      let isTerminal := TERMINAL_MARKERS.any (fun t => containsSub ptype t)
      let deadEndWs : List Warning :=
        if comp.relationships ≠ [] && !idInGraph g p.id && !isTerminal then
          [mkDeadEndWarning pname p.id]
        else []
      match processorChecksAux g rest with
      | .error e => .error e
      | .ok ws => .ok (disabledWs ++ deadEndWs ++ ws)

/-! ### `${...}` fragment extraction

`re.compile(r'\$\x7b([^\x7d]+)\x7d').findall(value)`: non-overlapping
left-to-right matches; a match needs `$`, `{`, at least one non-`}`
character, then `}`.  On failure the scan advances one character; on
success it resumes after the closing brace.  `findFragsAux` is given
`length + 1` fuel; every step consumes at least one character, so the
fuel never runs out and the scan is exactly the regex's. -/

def findFragsAux : Nat → List Char → List (List Char)
  | 0, _ => []
  | _ + 1, [] => []
  | n + 1, c1 :: t =>
    if c1 = dollar then
      match t with
      | [] => []
      | c2 :: t2 =>
        if c2 = lbrace then
          match t2.dropWhile (fun c => c ≠ rbrace) with
          | [] => findFragsAux n (c2 :: t2)
          | _ :: rest2 =>
            let inner := t2.takeWhile (fun c => c ≠ rbrace)
            if inner.isEmpty then findFragsAux n (c2 :: t2)
            else inner :: findFragsAux n rest2
        else findFragsAux n (c2 :: t2)
    else findFragsAux n t

def findExprs (s : String) : List String :=
  (findFragsAux (s.toList.length + 1) s.toList).map (fun l => String.mk l)

/-- `param.get("name") or param.get("parameter", {}).get("name")`,
    then the truthiness test before `defined_params.add(name)`. -/
def effParamName (p : PCParam) : Option String :=
  let n := if truthyOpt p.name then p.name else p.parameter_name
  if truthyOpt n then n else none

def definedParams (d : FlowData) : List String :=
  d.parameter_contexts.flatMap (fun ctx => ctx.parameters.filterMap effParamName)

/-- `param_name.startswith(func.split("(")[0])` over the function
    catalog, or `param_name.startswith(prefix)` over the property
    prefixes. -/
def isSystemRef (nm : String) : Bool :=
  NIFI_SYSTEM_FUNCTIONS.any (fun f => startsWithB nm (takeBeforeChar f (Char.ofNat 40)))
    || NIFI_SYSTEM_PROPERTIES.any (fun pre => startsWithB nm pre)

def mkUndefWarn (pname propName nm : String) : Warning :=
  { wtype := "undefined_parameter", severity := "MEDIUM",
    message := "Undefined parameter: " ++ nm,
    cycle := [], processor := some pname, processor_id := none,
    parameter := some nm, property := some propName }

def param_warnings (d : FlowData) : List Warning :=
  let dps := definedParams d
  d.processors.flatMap (fun p =>
    let pname := p.component.name.getD "Unnamed"
    (dictMerge p.component.properties p.component.config_properties).flatMap
      (fun pr =>
        match pr.2 with
        | JVal.jstr s =>
          if containsSub s "$\x7b" then
            (findExprs s).flatMap (fun frag =>
              let nm := stripWs (takeBeforeChar frag ':')
              if isSystemRef nm || dps.contains nm then []
              else [mkUndefWarn pname pr.1 nm])
          else []
        | _ => []))

def validate_logical_semantics (d : FlowData) : Except FVErr (List Warning) :=
  match buildGraph d with
  | .error e => .error e
  | .ok g =>
    let cycleWs := (detect_cycles g).map mkCycleWarning
    match processorChecksAux g d.processors with
    | .error e => .error e
    | .ok procWs => .ok (cycleWs ++ procWs ++ param_warnings d)

/-! ## Tier 3: integrity validation (`_validate_integrity`) -/

def integrityItems (d : FlowData) : List (String × Option String) :=
  (d.processors.map (fun p => ("processors", p.id)))
    ++ (d.connections.map (fun c => ("connections", c.id)))
    ++ (d.controller_services.map (fun c => ("controller_services", c.id)))
    ++ (d.process_groups.map (fun c => ("process_groups", c.id)))
    ++ (d.input_ports.map (fun c => ("input_ports", c.id)))
    ++ (d.output_ports.map (fun c => ("output_ports", c.id)))
    ++ (d.funnels.map (fun c => ("funnels", c.id)))
    ++ (d.remote_process_groups.map (fun c => ("remote_process_groups", c.id)))

def missingIdErr (ctype : String) : FVErr :=
  { message := ctype ++ " component missing ID",
    component_id := none, component_name := none, line_number := none }

def dupIdErr (s ctype prevType : String) : FVErr :=
  { message := "Duplicate UUID: " ++ s ++ " in " ++ ctype ++ " and " ++ prevType,
    component_id := some s, component_name := none, line_number := none }

def integrityAux : List (String × String) → List (String × Option String) →
    Except FVErr Unit
  | _, [] => .ok ()
  | seen, (ctype, cid) :: rest =>
    match truthyId cid with
    | none => .error (missingIdErr ctype)
    | some s =>
      match lookupS seen s with
      | some prevType => .error (dupIdErr s ctype prevType)
      | none => integrityAux (seen ++ [(s, ctype)]) rest

def validate_integrity (d : FlowData) : Except FVErr Unit :=
  integrityAux [] (integrityItems d)

/-! ## Performance analysis (`_analyze_performance`): backpressure -/

structure BPRisk where
  connection_id : Option String
  source_id : Option String
  destination_id : Option String
  message : String
deriving DecidableEq

/-- `bp_obj = conn.get("backPressureObjectThreshold", 0)` compared by
    Python `==` to `0`. -/
def objCriterion (c : Conn) : Bool := pyEq (c.bpObj.getD (JVal.jint 0)) (JVal.jint 0)

/-- `bp_size = conn.get("backPressureDataSizeThreshold", "0 MB")`
    compared by Python `==` to `"0 MB"`. -/
def sizeCriterion (c : Conn) : Bool := pyEq (c.bpSize.getD (JVal.jstr "0 MB")) (JVal.jstr "0 MB")

def flaggedBP (c : Conn) : Bool := objCriterion c || sizeCriterion c

def mkBPRisk (c : Conn) : BPRisk :=
  ⟨c.id, c.sourceId, c.destinationId, "No backpressure configured"⟩

def backpressureRisks (d : FlowData) : List BPRisk :=
  (d.connections.filter flaggedBP).map mkBPRisk

/-! ## Migration readiness (`_calculate_migration_readiness`) -/

def READINESS_PENALTY_HIGH_WARNING : Int := 10

def READINESS_PENALTY_MEDIUM_WARNING : Int := 5

def READINESS_PENALTY_HIGH_SECURITY : Int := 15

def READINESS_PENALTY_MEDIUM_SECURITY : Int := 8

def countWSev (ws : List Warning) (sev : String) : Nat :=
  (ws.filter (fun w => w.severity == sev)).length

def countFSev (fs : List Finding) (sev : String) : Nat :=
  (fs.filter (fun f => f.severity == sev)).length

def calculate_migration_readiness (ws : List Warning) (fs : List Finding) : Int :=
  let score : Int := 100
  let score := score - countWSev ws "HIGH" * READINESS_PENALTY_HIGH_WARNING
  let score := score - countWSev ws "MEDIUM" * READINESS_PENALTY_MEDIUM_WARNING
  let score := score - countFSev fs "HIGH" * READINESS_PENALTY_HIGH_SECURITY
  let score := score - countFSev fs "MEDIUM" * READINESS_PENALTY_MEDIUM_SECURITY
  max score 0

/-- The spec's readiness formula: `100` minus the severity-weighted
    penalties, clamped below at `0`. -/
def specReadiness (h m sh sm : Nat) : Int :=
  max (100 - 10 * (h : Int) - 5 * (m : Int) - 15 * (sh : Int) - 8 * (sm : Int)) 0

/-! ## Complexity score (`_calculate_complexity_score`)

`math.log` on IEEE doubles is embedded as `Real.log`; the claimed
properties (bounds, zero case, monotonicity) are independent of the
rounding of the float computation. -/

def COMPLEXITY_WEIGHT_GROUPS : ℝ := 2

def COMPLEXITY_WEIGHT_DEPTH : ℝ := 5

def COMPLEXITY_MAX_PROCESSOR_SCORE : ℝ := 30

def COMPLEXITY_MAX_CONNECTION_SCORE : ℝ := 20

def COMPLEXITY_MAX_GROUP_SCORE : ℝ := 20

def COMPLEXITY_MAX_DEPTH_SCORE : ℝ := 30

/-- `max((p.get("_hierarchy_depth", 0) for p in processors), default=0)`. -/
def maxDepth (d : FlowData) : Nat :=
  d.processors.foldl (fun m p => max m (p.hier_depth.getD 0)) 0

/-- Python `int()` on the accumulated float score (truncation toward 0). -/
noncomputable def pyTrunc (x : ℝ) : Int := if 0 ≤ x then ⌊x⌋ else ⌈x⌉

/-- The processor term of the score, with the source's `if proc_count > 0`
    guard. -/
noncomputable def procTermCode (P : Nat) : ℝ :=
  if 0 < P then min (Real.log (P + 1) * 10) COMPLEXITY_MAX_PROCESSOR_SCORE else 0

noncomputable def connTermCode (C : Nat) : ℝ :=
  if 0 < C then min (Real.log (C + 1) * 7) COMPLEXITY_MAX_CONNECTION_SCORE else 0

noncomputable def calculate_complexity_score (d : FlowData) : Int :=
  let P := d.processors.length
  let C := d.connections.length
  let G := d.process_groups.length
  let D := maxDepth d
  let s : ℝ :=
    procTermCode P + connTermCode C
      + min ((G : ℝ) * COMPLEXITY_WEIGHT_GROUPS) COMPLEXITY_MAX_GROUP_SCORE
      + min ((D : ℝ) * COMPLEXITY_WEIGHT_DEPTH) COMPLEXITY_MAX_DEPTH_SCORE
  min (pyTrunc s) 100

/-- The spec's formula: floor of the four min-capped terms, clamped to
    `[0, 100]`. -/
noncomputable def specComplexity (P C G D : Nat) : Int :=
  max 0 (min 100 ⌊min 30 (Real.log (P + 1) * 10) + min 20 (Real.log (C + 1) * 7)
    + min 20 ((G : ℝ) * 2) + min 30 ((D : ℝ) * 5)⌋)

/-! ## XML template parser fragment (`NiFiTemplateParser._parse_connection`)

Only the pieces the back-pressure claim depends on: `_get_text` always
yields a string, so every XML-parsed connection carries its thresholds
as strings. -/

inductive XElem : Type where
  | node : String → Option String → List XElem → XElem

def XElem.tagOf : XElem → String
  | XElem.node t _ _ => t

def XElem.textOf : XElem → Option String
  | XElem.node _ txt _ => txt

def XElem.childrenOf : XElem → List XElem
  | XElem.node _ _ cs => cs

/-- `elem.find(tag)`. -/
def XElem.findChild (e : XElem) (t : String) : Option XElem :=
  e.childrenOf.find? (fun c => c.tagOf == t)

/-- `_get_text(elem, tag, default)`: the child's text if the child
    exists and its text is truthy, else the default. -/
def getTextE (e : Option XElem) (t dflt : String) : String :=
  match e with
  | none => dflt
  | some el =>
    match el.findChild t with
    | some c =>
      match c.textOf with
      | some s => if s.isEmpty then dflt else s
      | none => dflt
    | none => dflt

/-- `_parse_connection` restricted to the fields of `Conn` (the group id
    and depth stamp only feed keys the analyzed functions never read). -/
def parse_connection (conn : XElem) : Conn :=
  { id := some (getTextE (some conn) "id" ""),
    name := some (getTextE (some conn) "name" ""),
    sourceId := (conn.findChild "source").map (fun s => getTextE (some s) "id" ""),
    destinationId := (conn.findChild "destination").map (fun s => getTextE (some s) "id" ""),
    bpSize := some (JVal.jstr (getTextE (some conn) "backPressureDataSizeThreshold" "")),
    bpObj := some (JVal.jstr (getTextE (some conn) "backPressureObjectThreshold" "")) }

/-! ## Concrete flow models used by the testable-property claims -/

/-- A plain stopped processor with the given id (not a script type, no
    declared relationships, no properties). -/
def plainProc (i : String) : Processor :=
  ⟨some i, ⟨some ("Proc" ++ i), some "GenericType", some "STOPPED", [], [], []⟩, some 0⟩

/-- A connection with valid bookkeeping fields and the given endpoints. -/
def connOf (cid s t : String) : Conn :=
  ⟨some cid, some (s ++ "-to-" ++ t), some s, some t,
   some (JVal.jstr "10000"), some (JVal.jstr "1 GB")⟩

def cAB : Conn := connOf "c1" "A" "B"

def cBC : Conn := connOf "c2" "B" "C"

def cCA : Conn := connOf "c3" "C" "A"

def cCD : Conn := connOf "c3" "C" "D"

/-- All six insertion orders of the edge set. -/
def orders3 (a b c : Conn) : List (List Conn) :=
  [[a, b, c], [a, c, b], [b, a, c], [b, c, a], [c, a, b], [c, b, a]]

def triConns : List Conn := [cAB, cBC, cCA]

def mkTriData (conns : List Conn) : FlowData :=
  { emptyData with processors := [plainProc "A", plainProc "B", plainProc "C"],
                   connections := conns }

def mkChainData (conns : List Conn) : FlowData :=
  { emptyData with
      processors := [plainProc "A", plainProc "B", plainProc "C", plainProc "D"],
      connections := conns }

def cycleWarningsOf (ws : List Warning) : List Warning :=
  ws.filter (fun w => w.wtype == "circular_dependency")

/-- The three rotations of the cycle path `[A, B, C, A]`. -/
def triRotationOk (c : List String) : Bool :=
  c == ["A", "B", "C", "A"] || c == ["B", "C", "A", "B"] || c == ["C", "A", "B", "C"]

/-- Exactly one `HIGH` cycle warning whose path is `[A,B,C,A]` up to
    rotation. -/
def c1CycleCheck (d : FlowData) : Bool :=
  match validate_logical_semantics d with
  | .ok ws =>
    let cw := cycleWarningsOf ws
    cw.length == 1 && cw.all (fun w => w.severity == "HIGH" && triRotationOk w.cycle)
  | .error _ => false

/-- Zero cycle warnings (and no fatal error). -/
def c1NoCycleCheck (d : FlowData) : Bool :=
  match validate_logical_semantics d with
  | .ok ws => (cycleWarningsOf ws).isEmpty
  | .error _ => false

/-- C1: for a flow whose connections form the edges A→B, B→C, C→A (in any
    insertion order), the semantic validator returns exactly one cycle
    warning, of severity HIGH, whose path is [A, B, C, A] up to rotation;
    for a purely linear chain A→B→C→D (in any insertion order) it returns
    zero cycle warnings. -/
theorem c1_cycle_detection :
    ((orders3 cAB cBC cCA).all (fun cs => c1CycleCheck (mkTriData cs)) = true)
      ∧ ((orders3 cAB cBC cCD).all (fun cs => c1NoCycleCheck (mkChainData cs)) = true) := by
  decide

/-! ## C2: soundness of reported cycles -/

/-- Specification-side notion: consecutive elements are directed edges of
    the graph. -/
def isChainOfEdges (g : Graph) : List String → Bool
  | [] => true
  | [_] => true
  | a :: b :: t => (graphGet g a).contains b && isChainOfEdges g (b :: t)

/-- Specification-side notion from the claim: a reported path is a
    genuine directed cycle when it closes on itself and every step is an
    edge. -/
def genuineCycleB (g : Graph) (c : List String) : Bool :=
  (2 ≤ c.length : Bool) && c.head? == c.getLast? && isChainOfEdges g c

/-- Flow whose connections are A→B, B→A, C→B. -/
def c2Data : FlowData :=
  { emptyData with processors := [plainProc "A", plainProc "B", plainProc "C"],
                   connections := [connOf "c1" "A" "B", connOf "c2" "B" "A",
                                   connOf "c3" "C" "B"] }

def c2Graph : Graph := [("A", ["B"]), ("B", ["A"]), ("C", ["B"])]

/-- C2 counterexample: on the graph of the connections A→B, B→A, C→B the
    search records the path [B, C, B], which is not a genuine directed
    cycle (B→C is not an edge): after the first cycle is found, the
    recursion stack and path are never cleared, so the later DFS from C
    closes against the stale stack entry B. -/
theorem c2_counterexample :
    buildGraph c2Data = .ok c2Graph
      ∧ (detect_cycles c2Graph).contains ["B", "C", "B"] = true
      ∧ genuineCycleB c2Graph ["B", "C", "B"] = false := by
  decide

/-! ## C7 counterexample: controller services are not protocol-scanned -/

def c7CsData : FlowData :=
  { emptyData with
      controller_services :=
        [⟨some "cs1", ⟨some "DBPool", some "DBCPConnectionPool", none,
          [("Database Connection URL", JVal.jstr "http://example.com/db")], [], []⟩⟩] }

/-- C7 counterexample: a controller-service property whose value contains
    `http://` produces no finding at all — the source's controller-service
    loop only runs the hardcoded-credential check, never the
    insecure-protocol check. -/
theorem c7_counterexample :
    containsSub (lowerStr "http://example.com/db") "http://" = true
      ∧ security_audit c7CsData = [] := by
  decide

/-! ## C8 counterexample: prefix (not exact) matching of function names -/

def c8CounterData : FlowData :=
  { emptyData with
      processors := [⟨some "p1", ⟨some "Proc1", some "GenerateFlowFile", some "STOPPED",
        [("p", JVal.jstr "$\x7bcounter\x7d")], [], []⟩, some 0⟩] }

/-- C8 counterexample: `counter` matches no catalog function name exactly
    and begins with no system-property prefix, and no parameter context
    declares it — the claim demands one MEDIUM warning — yet the code
    emits none, because `"counter".startswith("count")` exempts it. -/
theorem c8_counterexample :
    NIFI_SYSTEM_FUNCTIONS.contains "counter" = false
      ∧ NIFI_SYSTEM_PROPERTIES.all (fun pre => !startsWithB "counter" pre) = true
      ∧ definedParams c8CounterData = []
      ∧ param_warnings c8CounterData = [] := by
  decide

/-! ## C3: migration readiness -/

/-- C3: the readiness score is 100 minus 10 per HIGH warning, 5 per
    MEDIUM warning, 15 per HIGH finding, 8 per MEDIUM finding, clamped
    below at 0; LOW items subtract nothing; with at least 7 HIGH security
    findings it is exactly 0; it is never negative. -/
theorem c3_migration_readiness :
    (∀ ws fs, calculate_migration_readiness ws fs
        = specReadiness (countWSev ws "HIGH") (countWSev ws "MEDIUM")
            (countFSev fs "HIGH") (countFSev fs "MEDIUM"))
      ∧ (∀ ws fs (w : Warning), w.severity = "LOW" →
          calculate_migration_readiness (w :: ws) fs = calculate_migration_readiness ws fs)
      ∧ (∀ ws fs (f : Finding), f.severity = "LOW" →
          calculate_migration_readiness ws (f :: fs) = calculate_migration_readiness ws fs)
      ∧ (∀ ws fs, 7 ≤ countFSev fs "HIGH" → calculate_migration_readiness ws fs = 0)
      ∧ (∀ ws fs, 0 ≤ calculate_migration_readiness ws fs) := by
  have hform : ∀ ws fs, calculate_migration_readiness ws fs
      = specReadiness (countWSev ws "HIGH") (countWSev ws "MEDIUM")
          (countFSev fs "HIGH") (countFSev fs "MEDIUM") := by
    intro ws fs
    simp only [calculate_migration_readiness, specReadiness,
      READINESS_PENALTY_HIGH_WARNING, READINESS_PENALTY_MEDIUM_WARNING,
      READINESS_PENALTY_HIGH_SECURITY, READINESS_PENALTY_MEDIUM_SECURITY]
    congr 1
    ring
  refine ⟨hform, ?_, ?_, ?_, ?_⟩
  · intro ws fs w h
    have h1 : countWSev (w :: ws) "HIGH" = countWSev ws "HIGH" := by
      simp [countWSev, List.filter_cons, h]
    have h2 : countWSev (w :: ws) "MEDIUM" = countWSev ws "MEDIUM" := by
      simp [countWSev, List.filter_cons, h]
    rw [hform, hform, h1, h2]
  · intro ws fs f h
    have h1 : countFSev (f :: fs) "HIGH" = countFSev fs "HIGH" := by
      simp [countFSev, List.filter_cons, h]
    have h2 : countFSev (f :: fs) "MEDIUM" = countFSev fs "MEDIUM" := by
      simp [countFSev, List.filter_cons, h]
    rw [hform, hform, h1, h2]
  · intro ws fs h
    rw [hform]
    simp only [specReadiness]
    rw [max_eq_right]
    have : (7 : Int) ≤ (countFSev fs "HIGH" : Int) := by exact_mod_cast h
    have h0 : (0 : Int) ≤ (countWSev ws "HIGH" : Int) := by positivity
    have h1 : (0 : Int) ≤ (countWSev ws "MEDIUM" : Int) := by positivity
    have h2 : (0 : Int) ≤ (countFSev fs "MEDIUM" : Int) := by positivity
    omega
  · intro ws fs
    exact le_max_right _ _

/-! ## C9: integrity validation -/

lemma lookupS_append_single (seen : List (String × String)) (s ct k : String) :
    lookupS (seen ++ [(s, ct)]) k
      = match lookupS seen k with
        | some v => some v
        | none => if k = s then some ct else none := by
  simp only [lookupS, List.find?_append]
  cases h : (seen.find? (fun p => p.1 == k)) with
  | none =>
    simp only [List.find?, Option.map, Option.orElse]
    by_cases hk : k = s
    · subst hk; simp
    · have hs : (s == k) = false := by
        simp only [beq_eq_false_iff_ne, ne_eq]
        intro he; exact hk he.symm
      simp [hs, hk]
  | some v => simp [Option.orElse]

lemma integrityAux_ok_iff (l : List (String × Option String)) :
    ∀ seen, integrityAux seen l = .ok () ↔
      ((∀ it ∈ l, truthyId it.2 ≠ none)
        ∧ (l.map (fun it => (truthyId it.2).getD "")).Nodup
        ∧ ∀ it ∈ l, lookupS seen ((truthyId it.2).getD "") = none) := by
  induction l with
  | nil => intro seen; simp [integrityAux]
  | cons hd tl ih =>
    intro seen
    obtain ⟨ct, cid⟩ := hd
    simp only [integrityAux]
    cases htr : truthyId cid with
    | none =>
      constructor
      · intro h; exact absurd h (by simp)
      · intro ⟨h1, _, _⟩
        exact absurd htr (h1 (ct, cid) (List.mem_cons_self _ _))
    | some s =>
      cases hlk : lookupS seen s with
      | some prev =>
        constructor
        · intro h; exact absurd h (by simp [hlk])
        · intro ⟨_, _, h3⟩
          have := h3 (ct, cid) (List.mem_cons_self _ _)
          simp [htr] at this
          exact absurd hlk (by simp [this])
      | none =>
        simp only [hlk]
        rw [ih (seen ++ [(s, ct)])]
        constructor
        · intro ⟨h1, h2, h3⟩
          refine ⟨?_, ?_, ?_⟩
          · intro it hit
            rcases List.mem_cons.mp hit with h | h
            · subst h; simp [htr]
            · exact h1 it h
          · simp only [List.map_cons, List.nodup_cons, htr, Option.getD_some]
            refine ⟨?_, h2⟩
            intro hmem
            obtain ⟨it, hit, hval⟩ := List.mem_map.mp hmem
            have := h3 it hit
            rw [hval, lookupS_append_single] at this
            revert this
            cases lookupS seen s <;> simp
          · intro it hit
            rcases List.mem_cons.mp hit with h | h
            · subst h; simp [htr, hlk]
            · have := h3 it h
              rw [lookupS_append_single] at this
              revert this
              cases lookupS seen ((truthyId it.2).getD "") <;> simp
        · intro ⟨h1, h2, h3⟩
          simp only [List.map_cons, htr, Option.getD_some, List.nodup_cons] at h2
          refine ⟨?_, h2.2, ?_⟩
          · intro it hit; exact h1 it (List.mem_cons_of_mem _ hit)
          · intro it hit
            rw [lookupS_append_single, h3 it (List.mem_cons_of_mem _ hit)]
            have hne : (truthyId it.2).getD "" ≠ s := by
              intro he
              exact h2.1 (List.mem_map.mpr ⟨it, hit, he⟩)
            simp [hne]

def c9DupData : FlowData :=
  { emptyData with processors := [plainProc "X", plainProc "X"] }

/-- C9: integrity validation succeeds exactly when every component of the
    eight checked collections has a non-empty ID and all those IDs are
    pairwise distinct; two processors sharing the id "X" yield the fatal
    duplicate error naming the id and both collections. -/
theorem c9_integrity :
    (∀ d, validate_integrity d = .ok () ↔
        ((∀ it ∈ integrityItems d, truthyId it.2 ≠ none)
          ∧ ((integrityItems d).map (fun it => (truthyId it.2).getD "")).Nodup))
      ∧ validate_integrity c9DupData = .error (dupIdErr "X" "processors" "processors") := by
  constructor
  · intro d
    rw [validate_integrity, integrityAux_ok_iff]
    simp [lookupS]
  · decide

/-! ## C10: backpressure flagging semantics -/

/-- C10: the object-count criterion is Python `==` against the integer 0,
    so a string-valued threshold (the only shape the XML template parser
    produces) never triggers it — in particular the string "0" does not —
    while a connection lacking the key defaults to the integer 0 and is
    always flagged. -/
theorem c10_backpressure :
    (∀ (c : Conn) (s : String), c.bpObj = some (JVal.jstr s) → objCriterion c = false)
      ∧ (∀ c : Conn, c.bpObj = none → flaggedBP c = true)
      ∧ (∀ (d : FlowData) (c : Conn), c ∈ d.connections → c.bpObj = none →
          mkBPRisk c ∈ backpressureRisks d)
      ∧ (∀ e : XElem, ∃ s, (parse_connection e).bpObj = some (JVal.jstr s)) := by
  refine ⟨?_, ?_, ?_, ?_⟩
  · intro c s h; simp [objCriterion, h, pyEq]
  · intro c h; simp [flaggedBP, objCriterion, h, pyEq]
  · intro d c hc h
    exact List.mem_map_of_mem _
      (List.mem_filter.mpr ⟨hc, by simp [flaggedBP, objCriterion, h, pyEq]⟩)
  · intro e; exact ⟨_, rfl⟩

/-- Witness for C10 at concrete connections. -/
theorem c10_backpressure_witness :
    objCriterion ⟨some "cx", none, some "A", some "B",
        some (JVal.jstr "0"), some (JVal.jstr "1 GB")⟩ = false
      ∧ flaggedBP ⟨some "cy", none, some "A", some "B",
          none, some (JVal.jstr "1 GB")⟩ = true :=
  ⟨c10_backpressure.1 _ "0" rfl, c10_backpressure.2.1 _ rfl⟩

/-! ## C5: hardcoded-credential exemption -/

lemma containsStr_iff (l : List String) (a : String) : l.contains a = true ↔ a ∈ l := by
  simp [List.contains_eq_any_beq, List.any_eq_true, beq_iff_eq, eq_comm]

def c5Data (v : String) : FlowData :=
  { emptyData with
      processors := [⟨some "p1", ⟨some "CredProc", some "UpdateAttribute", some "STOPPED",
        [("Password", JVal.jstr v)], [], []⟩, some 0⟩] }

def credFindingsOf (fs : List Finding) : List Finding :=
  fs.filter (fun f => f.ftype == "hardcoded_credential")

/-- C5: a processor property named `Password` whose value contains the
    literal `${` yields no hardcoded-credential finding; the literal value
    `hunter2` yields exactly one HIGH finding naming the processor and the
    property. -/
theorem c5_credential_exemption :
    (∀ v : String, containsSub v "$\x7b" = true →
        credFindingsOf (security_audit (c5Data v)) = [])
      ∧ security_audit (c5Data "hunter2")
          = [mkCredFinding "CredProc" (some "p1") "Password"] := by
  constructor
  · intro v h
    rw [credFindingsOf, List.filter_eq_nil_iff]
    intro f hf
    simp [security_audit, c5Data, emptyData, dictMerge, lookupJ,
      procPropFindings, credCondition, h] at hf
    obtain ⟨pr, _, hpr⟩ := hf
    rw [← hpr]
    simp [mkProtoFinding]
  · decide

/-- Witness for C5 at the spec's example value. -/
theorem c5_credential_exemption_witness :
    credFindingsOf (security_audit (c5Data "$\x7bsecret_param\x7d")) = [] :=
  c5_credential_exemption.1 "$\x7bsecret_param\x7d" (by decide)

/-! ## C7 (amended): insecure-protocol scanning -/

/-- C7 amended: every processor property whose value contains an insecure
    scheme (case-insensitively) yields a MEDIUM finding naming the scheme,
    but only processor properties are protocol-scanned — every
    insecure-protocol finding belongs to a processor, never to a
    controller service. -/
theorem c7_insecure_protocol_amended :
    (∀ (d : FlowData) (p : Processor), p ∈ d.processors →
        ∀ (k v : String),
          (k, JVal.jstr v) ∈ dictMerge p.component.properties p.component.config_properties →
          ∀ pr ∈ INSECURE_PROTOCOLS, containsSub (lowerStr v) pr = true →
            mkProtoFinding (p.component.name.getD "Unnamed") p.id k pr ∈ security_audit d)
      ∧ (∀ (n : String) (i : Option String) (k pr : String),
          (mkProtoFinding n i k pr).severity = "MEDIUM"
            ∧ (mkProtoFinding n i k pr).protocol = some (rstripCS pr)
            ∧ (mkProtoFinding n i k pr).ftype = "insecure_protocol")
      ∧ (∀ (d : FlowData) (f : Finding), f ∈ security_audit d →
          f.ftype = "insecure_protocol" →
            f.processor.isSome = true ∧ f.controller_service = none) := by
  refine ⟨?_, ?_, ?_⟩
  · intro d p hp k v hkv pr hpr hcont
    refine List.mem_append.mpr (Or.inl ?_)
    refine List.mem_flatMap.mpr ⟨p, hp, ?_⟩
    refine List.mem_flatMap.mpr ⟨(k, JVal.jstr v), hkv, ?_⟩
    simp only [procPropFindings]
    refine List.mem_append.mpr (Or.inr ?_)
    exact List.mem_map.mpr ⟨pr, List.mem_filter.mpr ⟨hpr, by simpa using hcont⟩, rfl⟩
  · intro n i k pr; exact ⟨rfl, rfl, rfl⟩
  · intro d f hf hty
    rcases List.mem_append.mp hf with hA | hB
    · obtain ⟨p, _, hf2⟩ := List.mem_flatMap.mp hA
      obtain ⟨kv, _, hf3⟩ := List.mem_flatMap.mp hf2
      cases hv : kv.2 with
      | jstr s =>
        simp only [procPropFindings, hv] at hf3
        rcases List.mem_append.mp hf3 with hc | hp2
        · by_cases hcnd : credCondition kv.1 s = true
          · rw [if_pos hcnd] at hc
            rw [List.mem_singleton.mp hc] at hty
            simp [mkCredFinding] at hty
          · rw [if_neg hcnd] at hc
            exact absurd hc (List.not_mem_nil f)
        · obtain ⟨a, _, hfa⟩ := List.mem_map.mp hp2
          rw [← hfa]
          simp [mkProtoFinding]
      | jint z => simp [procPropFindings, hv] at hf3
      | jnull => simp [procPropFindings, hv] at hf3
    · obtain ⟨cs, _, hf2⟩ := List.mem_flatMap.mp hB
      obtain ⟨kv, _, hf3⟩ := List.mem_flatMap.mp hf2
      cases hv : kv.2 with
      | jstr s =>
        simp only [csPropFindings, hv] at hf3
        by_cases hcnd : credCondition kv.1 s = true
        · rw [if_pos hcnd] at hf3
          rw [List.mem_singleton.mp hf3] at hty
          simp [mkCredServiceFinding] at hty
        · rw [if_neg hcnd] at hf3
          exact absurd hf3 (List.not_mem_nil f)
      | jint z => simp [csPropFindings, hv] at hf3
      | jnull => simp [csPropFindings, hv] at hf3

def c7Proc : Processor :=
  ⟨some "pw", ⟨some "WebProc", some "InvokeHTTP", some "STOPPED",
    [("Remote URL", JVal.jstr "HTTP://example.com")], [], []⟩, some 0⟩

def c7ProcData : FlowData := { emptyData with processors := [c7Proc] }

/-- Witness for C7 (amended) at a concrete processor. -/
theorem c7_insecure_protocol_amended_witness :
    mkProtoFinding "WebProc" (some "pw") "Remote URL" "http://" ∈ security_audit c7ProcData := by
  exact c7_insecure_protocol_amended.1 c7ProcData c7Proc (by decide)
    "Remote URL" "HTTP://example.com" (by decide) "http://" (by decide) (by decide)

/-! ## C8 (amended): undefined-parameter warnings -/

def c8Proc : Processor :=
  ⟨some "p1", ⟨some "Proc1", some "GenerateFlowFile", some "STOPPED",
    [("p", JVal.jstr "$\x7bmyParam\x7d")], [], []⟩, some 0⟩

def c8m1 : FlowData := { emptyData with processors := [c8Proc] }

def c8m2 : FlowData :=
  { c8m1 with parameter_contexts := [⟨[⟨some "myParam", none⟩]⟩] }

lemma dollarBrace_toList : ("$\x7b".toList) = [dollar, lbrace] := by decide

/-- A value with no `${` occurrence yields no fragment: every step of the
    regex scan either stops or needs a `$` `{` pair. -/
lemma findFragsAux_eq_nil : ∀ (n : Nat) (cs : List Char),
    containsL ("$\x7b".toList) cs = false → findFragsAux n cs = [] := by
  intro n
  induction n with
  | zero => intro cs _; rfl
  | succ n ih =>
    intro cs h
    match cs with
    | [] => rfl
    | c1 :: t =>
      rw [show containsL ("$\x7b".toList) (c1 :: t)
          = (startsL ("$\x7b".toList) (c1 :: t) || containsL ("$\x7b".toList) t) from rfl,
        Bool.or_eq_false_iff] at h
      obtain ⟨h1, h2⟩ := h
      by_cases hd : c1 = dollar
      · cases t with
        | nil => simp only [findFragsAux, if_pos hd]
        | cons c2 t2 =>
          by_cases hb : c2 = lbrace
          · exfalso
            subst hd; subst hb
            rw [dollarBrace_toList] at h1
            simp [startsL] at h1
          · simp only [findFragsAux, if_pos hd, if_neg hb]
            exact ih (c2 :: t2) h2
      · simp only [findFragsAux, if_neg hd]
        exact ih t h2

lemma findExprs_eq_nil {s : String} (h : containsSub s "$\x7b" = false) :
    findExprs s = [] := by
  have h2 : containsL ("$\x7b".toList) s.toList = false := h
  rw [findExprs, findFragsAux_eq_nil _ _ h2]
  rfl

lemma flatMap_ext {α β : Type} (l : List α) (f f2 : α → List β)
    (h : ∀ a ∈ l, f a = f2 a) : l.flatMap f = l.flatMap f2 := by
  induction l with
  | nil => rfl
  | cons a t ih =>
    simp only [List.flatMap_cons]
    rw [h a (List.mem_cons_self _ _), ih (fun x hx => h x (List.mem_cons_of_mem _ hx))]

lemma flatMap_eq_filterMap {α β : Type} (f : α → List β) (g : α → Option β)
    (h : ∀ a, f a = (g a).toList) : ∀ l : List α, l.flatMap f = l.filterMap g := by
  intro l
  induction l with
  | nil => rfl
  | cons a t ih =>
    simp only [List.flatMap_cons]
    rw [h a, ih]
    cases hg : g a
    · rw [List.filterMap_cons_none hg]; rfl
    · rw [List.filterMap_cons_some hg]; rfl

/-- The amended claim's emission rule, per fragment: exactly one MEDIUM
    warning when the stripped pre-`:` name neither begins with a catalog
    function name, nor begins with a system-property prefix, nor is a
    declared parameter; no warning otherwise. -/
def specFragWarning (dps : List String) (pname propName frag : String) : Option Warning :=
  let nm := stripWs (takeBeforeChar frag ':')
  if isSystemRef nm || dps.contains nm then none else some (mkUndefWarn pname propName nm)

/-- The amended claim's description of the whole parameter check: the
    warnings are exactly the per-fragment emissions over every string
    property of every processor, in order. -/
def specParamWarnings (d : FlowData) : List Warning :=
  d.processors.flatMap (fun p =>
    (dictMerge p.component.properties p.component.config_properties).flatMap (fun pr =>
      match pr.2 with
      | JVal.jstr s =>
        (findExprs s).filterMap
          (specFragWarning (definedParams d) (p.component.name.getD "Unnamed") pr.1)
      | _ => []))

/-- Completeness and exactness: the code's warning list is exactly the
    claim's per-fragment emission list (the code's extra `"${" in value`
    guard is redundant because a value without `${` has no fragments). -/
lemma param_warnings_eq_spec (d : FlowData) : param_warnings d = specParamWarnings d := by
  simp only [param_warnings, specParamWarnings]
  apply flatMap_ext
  intro p _
  apply flatMap_ext
  intro pr _
  cases hv : pr.2 with
  | jstr s =>
    show (if containsSub s "$\x7b" then
        (findExprs s).flatMap (fun frag =>
          if isSystemRef (stripWs (takeBeforeChar frag ':'))
              || (definedParams d).contains (stripWs (takeBeforeChar frag ':')) then []
          else [mkUndefWarn (p.component.name.getD "Unnamed") pr.1
                  (stripWs (takeBeforeChar frag ':'))])
      else [])
      = (findExprs s).filterMap
          (specFragWarning (definedParams d) (p.component.name.getD "Unnamed") pr.1)
    by_cases hc : containsSub s "$\x7b" = true
    · rw [if_pos hc]
      apply flatMap_eq_filterMap
      intro frag
      simp only [specFragWarning]
      by_cases hcond : (isSystemRef (stripWs (takeBeforeChar frag ':'))
          || (definedParams d).contains (stripWs (takeBeforeChar frag ':'))) = true
      · rw [if_pos hcond, if_pos hcond]; rfl
      · rw [if_neg hcond, if_neg hcond]; rfl
    · have hf : containsSub s "$\x7b" = false := by
        revert hc; cases containsSub s "$\x7b" <;> simp
      rw [if_neg hc, findExprs_eq_nil hf]
      rfl
  | jint z => rfl
  | jnull => rfl

/-- C8 amended: a `${...}` reference is exempt when its name *begins
    with* a catalog function name or a system-property prefix.  The
    emitted warnings are exactly one MEDIUM `undefined_parameter` warning
    per non-exempt undeclared fragment (list-level equality with the
    claim's emission rule, plus the explicit emission direction), every
    emitted warning is non-exempt and undeclared, `${myParam}` with no
    declaring context yields exactly the one expected warning, and
    declaring `myParam` removes it. -/
theorem c8_undefined_parameter_amended :
    (∀ d : FlowData, param_warnings d = specParamWarnings d)
      ∧ (∀ (d : FlowData) (p : Processor), p ∈ d.processors →
          ∀ (k s : String),
            (k, JVal.jstr s) ∈ dictMerge p.component.properties p.component.config_properties →
          ∀ frag ∈ findExprs s,
            isSystemRef (stripWs (takeBeforeChar frag ':')) = false →
            stripWs (takeBeforeChar frag ':') ∉ definedParams d →
            mkUndefWarn (p.component.name.getD "Unnamed") k (stripWs (takeBeforeChar frag ':'))
              ∈ param_warnings d)
      ∧ (∀ (d : FlowData) (w : Warning), w ∈ param_warnings d →
          w.wtype = "undefined_parameter" ∧ w.severity = "MEDIUM"
            ∧ ∃ nm, w.parameter = some nm ∧ isSystemRef nm = false ∧ nm ∉ definedParams d)
      ∧ param_warnings c8m1 = [mkUndefWarn "Proc1" "p" "myParam"]
      ∧ param_warnings c8m2 = [] := by
  refine ⟨param_warnings_eq_spec, ?_, ?_, by decide, by decide⟩
  · intro d p hp k s hks frag hfrag hsys hdecl
    rw [param_warnings_eq_spec, specParamWarnings]
    refine List.mem_flatMap.mpr ⟨p, hp, ?_⟩
    refine List.mem_flatMap.mpr ⟨(k, JVal.jstr s), hks, ?_⟩
    refine List.mem_filterMap.mpr ⟨frag, hfrag, ?_⟩
    simp only [specFragWarning]
    have hcf : (definedParams d).contains (stripWs (takeBeforeChar frag ':')) = false := by
      by_cases hcc : (definedParams d).contains (stripWs (takeBeforeChar frag ':')) = true
      · exact absurd ((containsStr_iff _ _).mp hcc) hdecl
      · revert hcc; cases (definedParams d).contains (stripWs (takeBeforeChar frag ':')) <;> simp
    rw [hsys, hcf, if_neg (by simp)]
  · intro d w hw
    simp only [param_warnings] at hw
    obtain ⟨p, _, hw2⟩ := List.mem_flatMap.mp hw
    obtain ⟨kv, _, hw3⟩ := List.mem_flatMap.mp hw2
    cases hv : kv.2 with
    | jstr s =>
      simp only [hv] at hw3
      by_cases hc : containsSub s "$\x7b" = true
      · rw [if_pos hc] at hw3
        obtain ⟨frag, _, hw4⟩ := List.mem_flatMap.mp hw3
        by_cases hsys : (isSystemRef (stripWs (takeBeforeChar frag ':'))
            || (definedParams d).contains (stripWs (takeBeforeChar frag ':'))) = true
        · rw [if_pos hsys] at hw4
          exact absurd hw4 (List.not_mem_nil w)
        · rw [if_neg hsys] at hw4
          rw [List.mem_singleton.mp hw4]
          simp only [Bool.or_eq_true, not_or, Bool.not_eq_true] at hsys
          refine ⟨rfl, rfl, stripWs (takeBeforeChar frag ':'), rfl, hsys.1, ?_⟩
          intro hmem
          have := (containsStr_iff _ _).mpr hmem
          rw [hsys.2] at this
          exact Bool.false_ne_true this
      · rw [if_neg hc] at hw3
        exact absurd hw3 (List.not_mem_nil w)
    | jint z => simp [hv] at hw3
    | jnull => simp [hv] at hw3

/-- Witness for C8 (amended): the emission direction applied to the
    `${myParam}` fragment of the concrete model. -/
theorem c8_undefined_parameter_amended_witness :
    mkUndefWarn "Proc1" "p" (stripWs (takeBeforeChar "myParam" ':')) ∈ param_warnings c8m1 := by
  exact c8_undefined_parameter_amended.2.1 c8m1 c8Proc (by decide) "p" "$\x7bmyParam\x7d"
    (by decide) "myParam" (by decide) (by decide) (by decide)

/-! ## C6: connection referential integrity -/

lemma truthyId_eq_some {o : Option String} {x : String} :
    truthyId o = some x ↔ o = some x ∧ x ≠ "" := by
  cases o with
  | none => simp [truthyId]
  | some s =>
    simp only [truthyId]
    by_cases hs : s = ""
    · subst hs
      rw [if_pos (by decide)]
      constructor
      · intro he; exact absurd he (by simp)
      · rintro ⟨he, hne⟩
        injection he with h2
        exact absurd h2.symm hne
    · rw [if_neg (fun h => hs ((String.isEmpty_iff _).mp h))]
      constructor
      · intro he
        refine ⟨he, ?_⟩
        injection he with h2
        subst h2
        exact hs
      · exact fun h => h.1

lemma mem_pgSynth (g : SimpleComp) (x : String) :
    (x ∈ match truthyId g.id with
          | some s => [s, s ++ "-input-port", s ++ "-output-port"]
          | none => ([] : List String))
      ↔ ∃ s, truthyId g.id = some s
          ∧ (x = s ∨ x = s ++ "-input-port" ∨ x = s ++ "-output-port") := by
  cases h : truthyId g.id <;> simp [h]

/-- The claim's description of the valid-ID set: every (non-empty)
    component id of the seven collections, where each process group
    additionally contributes its two synthetic boundary-port ids. -/
def ValidIdSpec (d : FlowData) (x : String) : Prop :=
  (∃ p ∈ d.processors, p.id = some x ∧ x ≠ "")
    ∨ (∃ g ∈ d.process_groups, ∃ s, (g.id = some s ∧ s ≠ "")
        ∧ (x = s ∨ x = s ++ "-input-port" ∨ x = s ++ "-output-port"))
    ∨ (∃ c ∈ d.controller_services, c.id = some x ∧ x ≠ "")
    ∨ (∃ c ∈ d.input_ports, c.id = some x ∧ x ≠ "")
    ∨ (∃ c ∈ d.output_ports, c.id = some x ∧ x ≠ "")
    ∨ (∃ c ∈ d.funnels, c.id = some x ∧ x ≠ "")
    ∨ (∃ c ∈ d.remote_process_groups, c.id = some x ∧ x ≠ "")

lemma validIds_mem_iff (d : FlowData) (x : String) :
    x ∈ collect_all_valid_ids d ↔ ValidIdSpec d x := by
  simp only [collect_all_valid_ids, ValidIdSpec, List.mem_append, List.mem_filterMap,
    List.mem_flatMap, mem_pgSynth, truthyId_eq_some, or_assoc]

lemma buildGraphAux_ok_iff (vids : List String) :
    ∀ (cs : List Conn) (g : Graph),
      (∃ g2, buildGraphAux vids g cs = .ok g2)
        ↔ ∀ c ∈ cs, srcOkB vids c = true ∧ dstOkB vids c = true := by
  intro cs
  induction cs with
  | nil => intro g; simp [buildGraphAux]
  | cons c rest ih =>
    intro g
    simp only [buildGraphAux, connCheck]
    by_cases hs : srcOkB vids c = true
    · by_cases hd : dstOkB vids c = true
      · simp only [if_pos hs, if_pos hd]
        rw [ih]
        constructor
        · intro h c2 hc2
          rcases List.mem_cons.mp hc2 with h2 | h2
          · subst h2; exact ⟨hs, hd⟩
          · exact h c2 h2
        · intro h c2 hc2; exact h c2 (List.mem_cons_of_mem _ hc2)
      · simp only [if_pos hs, if_neg hd]
        constructor
        · rintro ⟨g2, hg2⟩; exact absurd hg2 (by simp)
        · intro h; exact absurd (h c (List.mem_cons_self _ _)).2 hd
    · simp only [if_neg hs]
      constructor
      · rintro ⟨g2, hg2⟩; exact absurd hg2 (by simp)
      · intro h; exact absurd (h c (List.mem_cons_self _ _)).1 hs

lemma buildGraphAux_error (vids : List String) :
    ∀ (cs : List Conn) (g : Graph) (e : FVErr),
      buildGraphAux vids g cs = .error e →
        ∃ c ∈ cs, (srcOkB vids c = false ∧ e = srcErr c)
          ∨ (srcOkB vids c = true ∧ dstOkB vids c = false ∧ e = dstErr c) := by
  intro cs
  induction cs with
  | nil => intro g e h; simp [buildGraphAux] at h
  | cons c rest ih =>
    intro g e h
    simp only [buildGraphAux, connCheck] at h
    by_cases hs : srcOkB vids c = true
    · by_cases hd : dstOkB vids c = true
      · rw [if_pos hs, if_pos hd] at h
        obtain ⟨c2, hc2, hcase⟩ := ih _ e h
        exact ⟨c2, List.mem_cons_of_mem _ hc2, hcase⟩
      · rw [if_pos hs, if_neg hd] at h
        refine ⟨c, List.mem_cons_self _ _, Or.inr ⟨hs, ?_, ?_⟩⟩
        · exact Bool.not_eq_true _ ▸ (by simpa using hd)
        · exact (Except.error.injEq _ _).mp h.symm ▸ rfl
    · rw [if_neg hs] at h
      refine ⟨c, List.mem_cons_self _ _, Or.inl ⟨?_, ?_⟩⟩
      · exact Bool.not_eq_true _ ▸ (by simpa using hs)
      · exact (Except.error.injEq _ _).mp h.symm ▸ rfl

/-- C6: the valid-ID set is exactly the claim's description (all
    component ids plus the two synthetic port ids per process group);
    connection validation succeeds iff every connection's endpoints are
    non-empty and resolve in that set; on failure the raised error is the
    first offending connection's source- or destination-error, carrying
    its id and display name, and the error propagates out of
    `validate_logical_semantics`. -/
theorem c6_connection_validation :
    (∀ (d : FlowData) (x : String), x ∈ collect_all_valid_ids d ↔ ValidIdSpec d x)
      ∧ (∀ d : FlowData, (∃ g, buildGraph d = .ok g)
          ↔ ∀ c ∈ d.connections,
              srcOkB (collect_all_valid_ids d) c = true
                ∧ dstOkB (collect_all_valid_ids d) c = true)
      ∧ (∀ (d : FlowData) (e : FVErr), buildGraph d = .error e →
          ∃ c ∈ d.connections,
            (srcOkB (collect_all_valid_ids d) c = false ∧ e = srcErr c)
              ∨ (srcOkB (collect_all_valid_ids d) c = true
                  ∧ dstOkB (collect_all_valid_ids d) c = false ∧ e = dstErr c))
      ∧ (∀ (c : Conn), (srcErr c).component_id = some (connDisplayId c)
          ∧ (srcErr c).component_name = some (connDisplayName c)
          ∧ (dstErr c).component_id = some (connDisplayId c)
          ∧ (dstErr c).component_name = some (connDisplayName c))
      ∧ (∀ (d : FlowData) (e : FVErr), buildGraph d = .error e →
          validate_logical_semantics d = .error e) := by
  refine ⟨validIds_mem_iff, ?_, ?_, ?_, ?_⟩
  · intro d; exact buildGraphAux_ok_iff _ d.connections []
  · intro d e h; exact buildGraphAux_error _ d.connections [] e h
  · intro c; exact ⟨rfl, rfl, rfl, rfl⟩
  · intro d e h; simp [validate_logical_semantics, h]

/-- Witness for C6: the characterization and the ok-iff applied to a
    concrete model. -/
theorem c6_connection_validation_witness :
    ("A" ∈ collect_all_valid_ids (mkTriData triConns) ↔ ValidIdSpec (mkTriData triConns) "A")
      ∧ (∃ g, buildGraph (mkTriData triConns) = .ok g) :=
  ⟨c6_connection_validation.1 (mkTriData triConns) "A",
   (c6_connection_validation.2.1 (mkTriData triConns)).mpr (by decide)⟩

/-! ## C4: complexity score -/

lemma procTermCode_nonneg (P : Nat) : 0 ≤ procTermCode P := by
  rw [procTermCode]
  split
  · refine le_min ?_ (by norm_num [COMPLEXITY_MAX_PROCESSOR_SCORE])
    refine mul_nonneg (Real.log_nonneg ?_) (by norm_num)
    have : (0 : ℝ) ≤ (P : ℝ) := by positivity
    linarith
  · exact le_refl 0

lemma connTermCode_nonneg (C : Nat) : 0 ≤ connTermCode C := by
  rw [connTermCode]
  split
  · refine le_min ?_ (by norm_num [COMPLEXITY_MAX_CONNECTION_SCORE])
    refine mul_nonneg (Real.log_nonneg ?_) (by norm_num)
    have : (0 : ℝ) ≤ (C : ℝ) := by positivity
    linarith
  · exact le_refl 0

lemma groupTerm_nonneg (G : Nat) :
    0 ≤ min ((G : ℝ) * COMPLEXITY_WEIGHT_GROUPS) COMPLEXITY_MAX_GROUP_SCORE := by
  refine le_min ?_ (by norm_num [COMPLEXITY_MAX_GROUP_SCORE])
  rw [COMPLEXITY_WEIGHT_GROUPS]
  positivity

lemma depthTerm_nonneg (D : Nat) :
    0 ≤ min ((D : ℝ) * COMPLEXITY_WEIGHT_DEPTH) COMPLEXITY_MAX_DEPTH_SCORE := by
  refine le_min ?_ (by norm_num [COMPLEXITY_MAX_DEPTH_SCORE])
  rw [COMPLEXITY_WEIGHT_DEPTH]
  positivity

lemma complexity_sum_nonneg (d : FlowData) :
    (0 : ℝ) ≤ procTermCode d.processors.length + connTermCode d.connections.length
      + min ((d.process_groups.length : ℝ) * COMPLEXITY_WEIGHT_GROUPS) COMPLEXITY_MAX_GROUP_SCORE
      + min ((maxDepth d : ℝ) * COMPLEXITY_WEIGHT_DEPTH) COMPLEXITY_MAX_DEPTH_SCORE := by
  have h1 := procTermCode_nonneg d.processors.length
  have h2 := connTermCode_nonneg d.connections.length
  have h3 := groupTerm_nonneg d.process_groups.length
  have h4 := depthTerm_nonneg (maxDepth d)
  linarith

lemma procTermCode_eq_specTerm (P : Nat) :
    procTermCode P = min 30 (Real.log (P + 1) * 10) := by
  rw [procTermCode, COMPLEXITY_MAX_PROCESSOR_SCORE]
  split
  · exact min_comm _ _
  · have hP : P = 0 := by omega
    subst hP
    norm_num [Real.log_one]

lemma connTermCode_eq_specTerm (C : Nat) :
    connTermCode C = min 20 (Real.log (C + 1) * 7) := by
  rw [connTermCode, COMPLEXITY_MAX_CONNECTION_SCORE]
  split
  · exact min_comm _ _
  · have hC : C = 0 := by omega
    subst hC
    norm_num [Real.log_one]

lemma code_spec_sum_eq (P C G D : Nat) :
    procTermCode P + connTermCode C
      + min ((G : ℝ) * COMPLEXITY_WEIGHT_GROUPS) COMPLEXITY_MAX_GROUP_SCORE
      + min ((D : ℝ) * COMPLEXITY_WEIGHT_DEPTH) COMPLEXITY_MAX_DEPTH_SCORE
    = min 30 (Real.log (P + 1) * 10) + min 20 (Real.log (C + 1) * 7)
      + min 20 ((G : ℝ) * 2) + min 30 ((D : ℝ) * 5) := by
  rw [procTermCode_eq_specTerm, connTermCode_eq_specTerm,
    COMPLEXITY_WEIGHT_GROUPS, COMPLEXITY_WEIGHT_DEPTH,
    COMPLEXITY_MAX_GROUP_SCORE, COMPLEXITY_MAX_DEPTH_SCORE,
    min_comm ((G : ℝ) * 2) 20, min_comm ((D : ℝ) * 5) 30]

lemma min_max_clamp (F : Int) (h : 0 ≤ F) : min F 100 = max 0 (min 100 F) := by
  omega

/-- C4: the code's score equals the spec formula
    `clamp [0,100] (floor (min 30 (ln(P+1)*10) + min 20 (ln(C+1)*7)
    + min 20 (2G) + min 30 (5D)))`; it always lies in `[0, 100]`; it is 0
    on the empty flow; and the processor term is monotone in P. -/
theorem c4_complexity_score :
    (∀ d : FlowData, calculate_complexity_score d
        = specComplexity d.processors.length d.connections.length
            d.process_groups.length (maxDepth d))
      ∧ (∀ d : FlowData,
          0 ≤ calculate_complexity_score d ∧ calculate_complexity_score d ≤ 100)
      ∧ (∀ d : FlowData, d.processors = [] → d.connections = [] →
          d.process_groups = [] → calculate_complexity_score d = 0)
      ∧ (∀ P Q : Nat, P ≤ Q → procTermCode P ≤ procTermCode Q) := by
  have hfloor : ∀ d : FlowData,
      calculate_complexity_score d
        = min (⌊procTermCode d.processors.length + connTermCode d.connections.length
            + min ((d.process_groups.length : ℝ) * COMPLEXITY_WEIGHT_GROUPS)
                COMPLEXITY_MAX_GROUP_SCORE
            + min ((maxDepth d : ℝ) * COMPLEXITY_WEIGHT_DEPTH)
                COMPLEXITY_MAX_DEPTH_SCORE⌋) 100 := by
    intro d
    rw [calculate_complexity_score, pyTrunc, if_pos (complexity_sum_nonneg d)]
  have hfloor_nonneg : ∀ d : FlowData,
      0 ≤ ⌊procTermCode d.processors.length + connTermCode d.connections.length
            + min ((d.process_groups.length : ℝ) * COMPLEXITY_WEIGHT_GROUPS)
                COMPLEXITY_MAX_GROUP_SCORE
            + min ((maxDepth d : ℝ) * COMPLEXITY_WEIGHT_DEPTH)
                COMPLEXITY_MAX_DEPTH_SCORE⌋ := by
    intro d
    exact Int.floor_nonneg.mpr (complexity_sum_nonneg d)
  refine ⟨?_, ?_, ?_, ?_⟩
  · intro d
    rw [hfloor, specComplexity, ← code_spec_sum_eq]
    exact min_max_clamp _ (hfloor_nonneg d)
  · intro d
    rw [hfloor]
    constructor
    · exact le_min (hfloor_nonneg d) (by norm_num)
    · exact min_le_right _ _
  · intro d h1 h2 h3
    rw [hfloor]
    have hd : maxDepth d = 0 := by rw [maxDepth, h1]; rfl
    rw [h1, h2, h3, hd]
    norm_num [procTermCode, connTermCode, COMPLEXITY_WEIGHT_GROUPS,
      COMPLEXITY_WEIGHT_DEPTH, COMPLEXITY_MAX_GROUP_SCORE, COMPLEXITY_MAX_DEPTH_SCORE]
  · intro P Q hPQ
    rw [procTermCode, procTermCode]
    by_cases hP : 0 < P
    · rw [if_pos hP, if_pos (by omega)]
      refine min_le_min ?_ le_rfl
      refine mul_le_mul_of_nonneg_right ?_ (by norm_num)
      refine Real.log_le_log (by positivity) ?_
      have : (P : ℝ) ≤ (Q : ℝ) := by exact_mod_cast hPQ
      linarith
    · rw [if_neg hP]
      split
      · refine le_min ?_ (by norm_num [COMPLEXITY_MAX_PROCESSOR_SCORE])
        refine mul_nonneg (Real.log_nonneg ?_) (by norm_num)
        have : (0 : ℝ) ≤ (Q : ℝ) := by positivity
        linarith
      · exact le_refl 0

/-- Witness for C4: monotonicity and the zero case at concrete inputs. -/
theorem c4_complexity_score_witness :
    procTermCode 3 ≤ procTermCode 5 ∧ calculate_complexity_score emptyData = 0 :=
  ⟨c4_complexity_score.2.2.2 3 5 (by norm_num),
   c4_complexity_score.2.2.1 emptyData rfl rfl rfl⟩

/-! ## C2 (amended): invariants of the cycle search

The counterexample above shows a reported path need not be a genuine
directed cycle.  What does hold: the outer loop visits every key of the
graph, and every recorded cycle has length at least 2, starts and ends
at the same node, and closes with a genuine edge of the graph. -/

/-- What is true of every recorded cycle. -/
def CycleOkP (g : Graph) (c : List String) : Prop :=
  2 ≤ c.length ∧ c.head? = c.getLast?
    ∧ ∃ x y, getElem? c (c.length - 2) = some x ∧ getElem? c (c.length - 1) = some y
        ∧ y ∈ graphGet g x

/-- The DFS state invariant: the path is duplicate-free, the recursion
    stack holds exactly the path's members, the path is visited, and all
    recorded cycles are sound. -/
structure GoodSt (g : Graph) (st : DfsSt) : Prop where
  path_nodup : st.path.Nodup
  rec_nodup : st.rec_stack.Nodup
  path_iff_rec : ∀ x, x ∈ st.path ↔ x ∈ st.rec_stack
  path_sub_visited : ∀ x ∈ st.path, x ∈ st.visited
  cycles_ok : ∀ c ∈ st.cycles, CycleOkP g c

lemma idxOf_drop : ∀ (l : List String) (a : String), a ∈ l →
    ∃ t, l.drop (idxOf a l) = a :: t := by
  intro l a
  induction l with
  | nil => intro h; simp at h
  | cons b tl ih =>
    intro h
    by_cases hb : b = a
    · subst hb; exact ⟨tl, by simp [idxOf]⟩
    · have ha : a ∈ tl := by
        rcases List.mem_cons.mp h with h1 | h1
        · exact absurd h1.symm hb
        · exact h1
      obtain ⟨t, ht⟩ := ih ha
      refine ⟨t, ?_⟩
      simp only [idxOf, if_neg hb, List.drop_succ_cons]
      exact ht

lemma getLast?_drop_ne_nil : ∀ (l : List String) (i : Nat), l.drop i ≠ [] →
    (l.drop i).getLast? = l.getLast? := by
  intro l
  induction l with
  | nil => intro i h; simp at h
  | cons b t ih =>
    intro i h
    cases i with
    | zero => rfl
    | succ j =>
      simp only [List.drop_succ_cons] at h ⊢
      rw [ih j h]
      cases t with
      | nil => simp at h
      | cons c t2 => rw [List.getLast?_cons_cons]

lemma recordCycle_ok (g : Graph) (st : DfsSt) (node nb : String)
    (hG : GoodSt g st) (hlast : st.path.getLast? = some node)
    (hnb_rec : nb ∈ st.rec_stack) (hedge : nb ∈ graphGet g node) :
    CycleOkP g (st.path.drop (idxOf nb st.path) ++ [nb]) := by
  have hnb_path : nb ∈ st.path := (hG.path_iff_rec nb).mpr hnb_rec
  obtain ⟨t, ht⟩ := idxOf_drop st.path nb hnb_path
  have hL_ne : st.path.drop (idxOf nb st.path) ≠ [] := by rw [ht]; simp
  have hlen1 : 1 ≤ (st.path.drop (idxOf nb st.path)).length := by
    rw [ht]; simp
  refine ⟨?_, ?_, node, nb, ?_, ?_, hedge⟩
  · rw [ht]; simp
  · rw [ht, List.getLast?_concat]; rfl
  · have hlen2 : (st.path.drop (idxOf nb st.path) ++ [nb]).length - 2
        = (st.path.drop (idxOf nb st.path)).length - 1 := by
      rw [List.length_append]
      simp
    rw [hlen2, List.getElem?_append_left (by omega)]
    rw [← List.getLast?_eq_getElem?]
    rw [getLast?_drop_ne_nil _ _ hL_ne]
    exact hlast
  · rw [← List.getLast?_eq_getElem?, List.getLast?_concat]

lemma dfsStep_visited_mono (g : Graph) :
    ∀ (n : Nat) (t : String ⊕ (String × List String)) (st : DfsSt),
      ∀ x ∈ st.visited, x ∈ (dfsStep g n t st).1.visited := by
  intro n
  induction n with
  | zero => intro t st x hx; exact hx
  | succ n ih =>
    intro t st x hx
    match t with
    | Sum.inl node =>
      simp only [dfsStep]
      rcases hr : dfsStep g n (Sum.inr (node, graphGet g node)) (pushNode st node)
        with ⟨st2, b⟩
      have hm := ih (Sum.inr (node, graphGet g node)) (pushNode st node) x
        (by simp [pushNode, List.mem_append]; exact Or.inl hx)
      rw [hr] at hm
      cases b
      · simpa [popNode] using hm
      · simpa using hm
    | Sum.inr (node, []) => exact hx
    | Sum.inr (node, nb :: rest) =>
      simp only [dfsStep]
      by_cases h1 : nb ∈ st.visited
      · rw [if_pos h1]
        by_cases h2 : nb ∈ st.rec_stack
        · rw [if_pos h2]; simpa [recordCycle] using hx
        · rw [if_neg h2]; exact ih (Sum.inr (node, rest)) st x hx
      · rw [if_neg h1]
        rcases hr : dfsStep g n (Sum.inl nb) st with ⟨st2, b⟩
        have hm := ih (Sum.inl nb) st x hx
        rw [hr] at hm
        cases b
        · exact ih (Sum.inr (node, rest)) st2 x hm
        · simpa using hm

lemma pushNode_good (g : Graph) (st : DfsSt) (node : String)
    (hG : GoodSt g st) (hnv : node ∉ st.visited) : GoodSt g (pushNode st node) := by
  have hnp : node ∉ st.path := fun h => hnv (hG.path_sub_visited node h)
  have hnr : node ∉ st.rec_stack := fun h => hnp ((hG.path_iff_rec node).mpr h)
  constructor
  · simp only [pushNode]
    rw [List.nodup_append]
    exact ⟨hG.path_nodup, List.nodup_singleton node,
      fun x hx hx2 => hnp ((List.mem_singleton.mp hx2) ▸ hx)⟩
  · simp only [pushNode]
    rw [List.nodup_append]
    exact ⟨hG.rec_nodup, List.nodup_singleton node,
      fun x hx hx2 => hnr ((List.mem_singleton.mp hx2) ▸ hx)⟩
  · intro x
    simp only [pushNode, List.mem_append, List.mem_singleton]
    exact or_congr (hG.path_iff_rec x) Iff.rfl
  · intro x hx
    simp only [pushNode, List.mem_append, List.mem_singleton] at hx ⊢
    rcases hx with hx | hx
    · exact Or.inl (hG.path_sub_visited x hx)
    · exact Or.inr hx
  · intro c hc
    exact hG.cycles_ok c hc

lemma popNode_after (st st2 : DfsSt) (node : String)
    (hpath2 : st2.path = st.path ++ [node])
    (hrec2 : st2.rec_stack = st.rec_stack ++ [node])
    (hnode : node ∉ st.rec_stack) :
    (popNode st2 node).path = st.path ∧ (popNode st2 node).rec_stack = st.rec_stack := by
  constructor
  · simp [popNode, hpath2, List.dropLast_concat]
  · simp only [popNode, hrec2]
    rw [List.erase_append_right _ hnode, List.erase_cons_head, List.append_nil]

lemma GoodSt_pop (g : Graph) (st st2 : DfsSt) (node : String)
    (hG : GoodSt g st) (hG2 : GoodSt g st2)
    (hvis : ∀ x ∈ st.visited, x ∈ st2.visited)
    (hpath : (popNode st2 node).path = st.path)
    (hrec : (popNode st2 node).rec_stack = st.rec_stack) :
    GoodSt g (popNode st2 node) := by
  constructor
  · rw [hpath]; exact hG.path_nodup
  · rw [hrec]; exact hG.rec_nodup
  · intro x; rw [hpath, hrec]; exact hG.path_iff_rec x
  · intro x hx
    rw [hpath] at hx
    have := hvis x (hG.path_sub_visited x hx)
    simpa [popNode] using this
  · intro c hc
    exact hG2.cycles_ok c (by simpa [popNode] using hc)

/-- The state invariant is preserved by every DFS step, and a `false`
    return restores the path and recursion stack exactly. -/
lemma dfsStep_spec (g : Graph) :
    ∀ n : Nat,
      (∀ (st : DfsSt) (node : String), GoodSt g st → node ∉ st.visited →
          GoodSt g (dfsStep g n (Sum.inl node) st).1
            ∧ ((dfsStep g n (Sum.inl node) st).2 = false →
                (dfsStep g n (Sum.inl node) st).1.path = st.path
                  ∧ (dfsStep g n (Sum.inl node) st).1.rec_stack = st.rec_stack))
        ∧ (∀ (st : DfsSt) (node : String) (l : List String), GoodSt g st →
            st.path.getLast? = some node → (∀ x ∈ l, x ∈ graphGet g node) →
            GoodSt g (dfsStep g n (Sum.inr (node, l)) st).1
              ∧ ((dfsStep g n (Sum.inr (node, l)) st).2 = false →
                  (dfsStep g n (Sum.inr (node, l)) st).1.path = st.path
                    ∧ (dfsStep g n (Sum.inr (node, l)) st).1.rec_stack = st.rec_stack)) := by
  intro n
  induction n with
  | zero =>
    constructor
    · intro st node hG _
      exact ⟨hG, fun _ => ⟨rfl, rfl⟩⟩
    · intro st node l hG _ _
      exact ⟨hG, fun _ => ⟨rfl, rfl⟩⟩
  | succ n ih =>
    obtain ⟨ihl, ihr⟩ := ih
    constructor
    · intro st node hG hnv
      have hpush := pushNode_good g st node hG hnv
      have hlast : (pushNode st node).path.getLast? = some node := by
        simp [pushNode, List.getLast?_concat]
      obtain ⟨hG2, hF2⟩ := ihr (pushNode st node) node (graphGet g node) hpush hlast
        (fun x hx => hx)
      have hmono := dfsStep_visited_mono g n (Sum.inr (node, graphGet g node))
        (pushNode st node)
      simp only [dfsStep]
      rcases hr : dfsStep g n (Sum.inr (node, graphGet g node)) (pushNode st node)
        with ⟨st2, b⟩
      rw [hr] at hG2 hF2 hmono
      cases b with
      | true => exact ⟨hG2, fun h => absurd h (by simp)⟩
      | false =>
        obtain ⟨hpath2, hrec2⟩ := hF2 rfl
        simp only [pushNode] at hpath2 hrec2
        have hnr : node ∉ st.rec_stack :=
          fun h => hnv (hG.path_sub_visited node ((hG.path_iff_rec node).mpr h))
        obtain ⟨hp, hq⟩ := popNode_after st st2 node hpath2 hrec2 hnr
        refine ⟨GoodSt_pop g st st2 node hG hG2 ?_ hp hq, fun _ => ⟨hp, hq⟩⟩
        intro x hx
        exact hmono x (by simp [pushNode, List.mem_append]; exact Or.inl hx)
    · intro st node l hG hlast hsub
      match l with
      | [] => exact ⟨hG, fun _ => ⟨rfl, rfl⟩⟩
      | nb :: rest =>
        simp only [dfsStep]
        by_cases h1 : nb ∈ st.visited
        · rw [if_pos h1]
          by_cases h2 : nb ∈ st.rec_stack
          · rw [if_pos h2]
            refine ⟨?_, fun h => absurd h (by simp)⟩
            constructor
            · exact hG.path_nodup
            · exact hG.rec_nodup
            · exact hG.path_iff_rec
            · exact hG.path_sub_visited
            · intro c hc
              simp only [recordCycle] at hc
              rcases List.mem_append.mp hc with hc | hc
              · exact hG.cycles_ok c hc
              · rw [List.mem_singleton.mp hc]
                exact recordCycle_ok g st node nb hG hlast h2
                  (hsub nb (List.mem_cons_self _ _))
          · rw [if_neg h2]
            exact ihr st node rest hG hlast
              (fun x hx => hsub x (List.mem_cons_of_mem _ hx))
        · rw [if_neg h1]
          obtain ⟨hG1, hF1⟩ := ihl st nb hG h1
          have hmono1 := dfsStep_visited_mono g n (Sum.inl nb) st
          rcases hr : dfsStep g n (Sum.inl nb) st with ⟨st2, b⟩
          rw [hr] at hG1 hF1 hmono1
          cases b with
          | true => exact ⟨hG1, fun h => absurd h (by simp)⟩
          | false =>
            obtain ⟨hpath1, hrec1⟩ := hF1 rfl
            have hlast2 : st2.path.getLast? = some node := by rw [hpath1]; exact hlast
            obtain ⟨hG3, hF3⟩ := ihr st2 node rest hG1 hlast2
              (fun x hx => hsub x (List.mem_cons_of_mem _ hx))
            refine ⟨hG3, fun h => ?_⟩
            obtain ⟨hp3, hq3⟩ := hF3 h
            exact ⟨hp3.trans hpath1, hq3.trans hrec1⟩

/-- Invariant and key coverage of the full search. -/
lemma detectCyclesSt_spec (g : Graph) :
    GoodSt g (detectCyclesSt g) ∧ ∀ k ∈ keysOf g, k ∈ (detectCyclesSt g).visited := by
  have hfuel : totalFuel g = (3 * graphSizeN g + 2) + 1 := by
    rw [totalFuel]
  have hinit : GoodSt g initSt := by
    constructor <;> simp [initSt]
  have main : ∀ (ks : List String) (st : DfsSt), GoodSt g st →
      GoodSt g (ks.foldl (fun st k =>
          if k ∈ st.visited then st else (dfsStep g (totalFuel g) (Sum.inl k) st).1) st)
        ∧ (∀ x ∈ st.visited, x ∈ (ks.foldl (fun st k =>
            if k ∈ st.visited then st else (dfsStep g (totalFuel g) (Sum.inl k) st).1) st).visited)
        ∧ ∀ k ∈ ks, k ∈ (ks.foldl (fun st k =>
            if k ∈ st.visited then st else (dfsStep g (totalFuel g) (Sum.inl k) st).1) st).visited := by
    intro ks
    induction ks with
    | nil => intro st hG; exact ⟨hG, fun x hx => hx, by simp⟩
    | cons k ks ih =>
      intro st hG
      simp only [List.foldl_cons]
      by_cases hk : k ∈ st.visited
      · rw [if_pos hk]
        obtain ⟨hG2, hmono2, hks2⟩ := ih st hG
        refine ⟨hG2, hmono2, ?_⟩
        intro k2 hk2
        rcases List.mem_cons.mp hk2 with h | h
        · subst h; exact hmono2 k2 hk
        · exact hks2 k2 h
      · rw [if_neg hk]
        have hGst2 : GoodSt g (dfsStep g (totalFuel g) (Sum.inl k) st).1 :=
          ((dfsStep_spec g (totalFuel g)).1 st k hG hk).1
        have hkvis : k ∈ (dfsStep g (totalFuel g) (Sum.inl k) st).1.visited := by
          rw [hfuel]
          simp only [dfsStep]
          rcases hr : dfsStep g (3 * graphSizeN g + 2)
              (Sum.inr (k, graphGet g k)) (pushNode st k) with ⟨st2, b⟩
          have hm := dfsStep_visited_mono g (3 * graphSizeN g + 2)
            (Sum.inr (k, graphGet g k)) (pushNode st k) k
            (by simp [pushNode, List.mem_append])
          rw [hr] at hm
          cases b
          · simpa [popNode] using hm
          · simpa using hm
        have hmono0 := dfsStep_visited_mono g (totalFuel g) (Sum.inl k) st
        obtain ⟨hG2, hmono2, hks2⟩ := ih _ hGst2
        refine ⟨hG2, ?_, ?_⟩
        · intro x hx
          exact hmono2 x (hmono0 x hx)
        · intro k2 hk2
          rcases List.mem_cons.mp hk2 with h | h
          · subst h; exact hmono2 k2 hkvis
          · exact hks2 k2 h
  obtain ⟨hG, _, hks⟩ := main (keysOf g) initSt hinit
  exact ⟨hG, hks⟩

/-- C2 amended: the cycle search reaches every key of the adjacency map
    (hence every component contributes), and every recorded cycle starts
    and ends at the same node, has length at least 2, and closes with a
    genuine edge; because the recursion stack and path are not cleared
    after a cycle is found, the interior of a reported path need not be
    edge-connected (see the counterexample). -/
theorem c2_cycle_search_amended :
    ∀ g : Graph,
      (∀ k ∈ keysOf g, k ∈ (detectCyclesSt g).visited)
        ∧ ∀ c ∈ detect_cycles g, CycleOkP g c := by
  intro g
  obtain ⟨hGood, hKeys⟩ := detectCyclesSt_spec g
  exact ⟨hKeys, fun c hc => hGood.cycles_ok c hc⟩

/-- Witness for C2 (amended) on the one-node self-loop graph. -/
theorem c2_cycle_search_amended_witness :
    ("A" ∈ (detectCyclesSt [("A", ["A"])]).visited)
      ∧ CycleOkP [("A", ["A"])] ["A", "A"] :=
  ⟨(c2_cycle_search_amended [("A", ["A"])]).1 "A" (by decide),
   (c2_cycle_search_amended [("A", ["A"])]).2 ["A", "A"] (by decide)⟩

/-- Witness for C3: seven HIGH security findings clamp the score to 0,
    and a LOW warning subtracts nothing. -/
theorem c3_migration_readiness_witness :
    calculate_migration_readiness []
        (List.replicate 7 (mkCredFinding "P" none "Password")) = 0
      ∧ calculate_migration_readiness [mkDisabledWarning "X" none] []
          = calculate_migration_readiness [] [] :=
  ⟨c3_migration_readiness.2.2.2.1 [] _ (by decide),
   c3_migration_readiness.2.1 [] [] _ rfl⟩

/-- Witness for C9: a flow with all ids distinct and non-empty passes
    integrity validation. -/
theorem c9_integrity_witness : validate_integrity (mkTriData triConns) = .ok () :=
  (c9_integrity.1 (mkTriData triConns)).mpr (by decide)

end NifiIngest
